import Mathlib

/-!
Shallow embedding of `src/elektrik_sebeke_akis.py` (class `ElektrikSebekesi`).

The original program stores an electrical transmission network in a
`networkx.DiGraph`: nodes carry the attributes `talep` (demand), `uretim`
(supply), `net = uretim - talep` and a derived role string `tip`
("kaynak" / "hedef" / "transfer"); directed edges carry `kapasite`
(capacity), `maliyet` (unit cost) and `akis` (current flow).

Modelling choices:
* Python dict keys used as node identities are either strings or (in
  pathological programs) tuples; `PKey` covers both so that the
  membership test `(u, v) in flow_dict` performed by
  `min_maliyet_akis_hesapla` is translated as a genuine equality test
  between a 2-tuple key and the dict's keys, exactly as Python executes it.
* Python dicts preserve insertion order and updating an existing key keeps
  its position; association lists with `aupsert` reproduce this, and
  `edgesOf` reproduces the iteration order of `DiGraph.edges` (source
  nodes in node insertion order, then targets in adjacency insertion
  order).
* Values stored into the `akis` attribute are modelled by `PVal`: numbers,
  or (on the dead branch of the write-back loop) an inner flow dict.
* Real number attributes are modelled by `ℚ`.
* The external library routine `networkx.network_simplex` is a parameter
  of the solve embedding (`simplex`); it returns the pair
  `(flowCost, flowDict)` where `flowDict` is keyed by node (a dict of
  dicts), or raises, modelled by `Except`.
* `print` calls on error paths are modelled by an `Option String`
  component of the result.
-/

inductive PKey where
  | s (v : String)
  | t2 (a b : PKey)
deriving DecidableEq, Repr

inductive PVal where
  | num (q : ℚ)
  | dict (d : List (PKey × ℚ))
deriving DecidableEq, Repr

/-- Is this Python value a number? -/
def PVal.isNum : PVal → Bool
  | .num _ => true
  | .dict _ => false

/-- The number held by a `PVal`, with `0` for the non-numeric case.
Only used where `isNum` is known to hold. -/
def PVal.q : PVal → ℚ
  | .num q => q
  | .dict _ => 0

/-- Node attribute dict written by `dugum_ekle`
(`talep`, `uretim`, `net`, `tip`). -/
structure NodeAttr where
  talep : ℚ
  uretim : ℚ
  net : ℚ
  tip : String
deriving DecidableEq, Repr

/-- Edge attribute dict written by `hat_ekle`
(`kapasite`, `maliyet`, `akis`). -/
structure EdgeAttr where
  kapasite : ℚ
  maliyet : ℚ
  akis : PVal
deriving DecidableEq, Repr

/-- First-match association list lookup (Python dict indexing). -/
def alookup {α : Type} (k : PKey) : List (PKey × α) → Option α
  | [] => none
  | (k₁, v) :: rest => if k = k₁ then some v else alookup k rest

/-- Python dict assignment `d[k] = v`: update in place if present
(keeping the key's position, as Python dicts do), else append. -/
def aupsert {α : Type} (k : PKey) (v : α) : List (PKey × α) → List (PKey × α)
  | [] => [(k, v)]
  | (k₁, v₁) :: rest => if k = k₁ then (k, v) :: rest else (k₁, v₁) :: aupsert k v rest

/-- Python `k in d`. -/
def amem {α : Type} (k : PKey) (l : List (PKey × α)) : Bool :=
  (alookup k l).isSome

/-- Adjacency structure of the `networkx.DiGraph`: for each source node its
successor dict mapping target node to the edge attribute dict. -/
abbrev Adj := List (PKey × List (PKey × EdgeAttr))

/-- Dict of dicts of flow values, the `flowDict` shape returned by
`networkx.network_simplex` (outer keys are nodes). -/
abbrev FlowDict := List (PKey × List (PKey × ℚ))

/-- Dict of dicts of `akis` attribute values, the `akislar` result shape
built by `min_maliyet_akis_hesapla`. -/
abbrev Akislar := List (PKey × List (PKey × PVal))

/-- State of an `ElektrikSebekesi` object: the name, the `DiGraph` (node
dict with optional attributes — `none` for nodes auto-created by
`add_edge` with an empty attribute dict — plus adjacency), and the
`self.sonuclar` results cache (its two possible keys as `Option` fields,
both absent right after `__init__`). -/
structure ElektrikSebekesi where
  ad : String
  nodes : List (PKey × Option NodeAttr)
  adj : Adj
  sonuclar_akislar : Option Akislar
  sonuclar_toplam_maliyet : Option ℚ
deriving DecidableEq, Repr

/-- `__init__`: empty graph, empty results dict. -/
def sebekeYap (ad : String) : ElektrikSebekesi :=
  { ad := ad, nodes := [], adj := [], sonuclar_akislar := none,
    sonuclar_toplam_maliyet := none }

/-- `dugum_ekle(dugum_id, talep, uretim)`: compute `net` and the role
string, then `add_node` (overwriting any existing attributes, keeping the
node's position). -/
def dugum_ekle (s : ElektrikSebekesi) (dugum_id : PKey) (talep uretim : ℚ) :
    ElektrikSebekesi :=
  let net := uretim - talep
  let tip := if net > 0 then "kaynak" else if net < 0 then "hedef" else "transfer"
  { s with nodes := aupsert dugum_id (some ⟨talep, uretim, net, tip⟩) s.nodes }

/-- `hat_ekle(kaynak, hedef, kapasite, maliyet, akis)`: delegates to
`DiGraph.add_edge`, which silently appends any absent endpoint to the node
dict with an empty attribute dict, then writes the edge attributes
(overwriting an existing edge between the same ordered pair in place). -/
def hat_ekle (s : ElektrikSebekesi) (kaynak hedef : PKey) (kapasite maliyet akis : ℚ) :
    ElektrikSebekesi :=
  let n₁ := if amem kaynak s.nodes then s.nodes else s.nodes ++ [(kaynak, none)]
  let n₂ := if amem hedef n₁ then n₁ else n₁ ++ [(hedef, none)]
  let bucket := (alookup kaynak s.adj).getD []
  { s with nodes := n₂,
           adj := aupsert kaynak (aupsert hedef ⟨kapasite, maliyet, PVal.num akis⟩ bucket) s.adj }

/-- `akis_ata(kaynak, hedef, akis_degeri)`: if `has_edge`, overwrite the
edge's `akis` attribute with the given value; otherwise print an error
message (second component) and leave the graph untouched. Either way the
method returns normally. -/
def akis_ata (s : ElektrikSebekesi) (kaynak hedef : PKey) (akis_degeri : ℚ) :
    ElektrikSebekesi × Option String :=
  match alookup kaynak s.adj with
  | some bucket =>
    match alookup hedef bucket with
    | some e =>
      let bucket₂ := aupsert hedef { e with akis := PVal.num akis_degeri } bucket
      ({ s with adj := aupsert kaynak bucket₂ s.adj }, none)
    | none => (s, some "Hata: hat bulunamadi")
  | none => (s, some "Hata: hat bulunamadi")

/-- Iteration order of `self.G.edges(data=True)`: source nodes in node
insertion order, per source the successors in adjacency insertion order. -/
def edgesOf (s : ElektrikSebekesi) : List (PKey × PKey × EdgeAttr) :=
  s.nodes.flatMap fun n => ((alookup n.1 s.adj).getD []).map fun ve => (n.1, ve.1, ve.2)

/-- The `akis` attribute currently stored on edge `(u, v)`, if the edge
exists. -/
def hatAkisi (s : ElektrikSebekesi) (u v : PKey) : Option PVal :=
  (alookup v ((alookup u s.adj).getD [])).map EdgeAttr.akis

/-- `self.G.has_edge(u, v)`. -/
def hatVar (s : ElektrikSebekesi) (u v : PKey) : Bool :=
  (alookup v ((alookup u s.adj).getD [])).isSome

/-- The optimization graph `mcf_graph` built inside
`min_maliyet_akis_hesapla`: nodes with their `demand` attribute, edges
with `capacity` and `weight`. -/
structure MCFGraph where
  nodes : List (PKey × ℚ)
  edges : List (PKey × PKey × ℚ × ℚ)
deriving DecidableEq, Repr

/-- The `demand` value assigned to one node of `mcf_graph`: `-net` for a
`kaynak` node, `abs(net)` for a `hedef` node, `0` otherwise. -/
def mcfDemand (a : NodeAttr) : ℚ :=
  if a.tip = "kaynak" then -a.net
  else if a.tip = "hedef" then |a.net| else 0

/-- The node loop of lines 79–86: add each node with its `demand` to
`mcf_graph`. Reading `attr['tip']` on a node whose attribute dict is empty
(auto-created by `add_edge`) raises `KeyError`, modelled by `none`; the
exception is later caught by the surrounding `try`. -/
def mcfNodesYap : List (PKey × Option NodeAttr) → Option (List (PKey × ℚ))
  | [] => some []
  | (k, some a) :: rest => (mcfNodesYap rest).map fun ns => (k, mcfDemand a) :: ns
  | (_, none) :: _ => none

/-- Lines 76–90 of the source: build `mcf_graph` from `self.G` (nodes with
`demand`, then edges with `capacity` and `weight`). -/
def buildMCF (s : ElektrikSebekesi) : Option MCFGraph :=
  (mcfNodesYap s.nodes).map fun ns =>
    { nodes := ns,
      edges := (edgesOf s).map fun e => (e.1, e.2.1, e.2.2.kapasite, e.2.2.maliyet) }

/-- The value the write-back loop stores into `self.G[u][v]['akis']`:
Python evaluates `(u, v) in flow_dict`, comparing the 2-tuple against the
outer keys of `flow_dict` (which are nodes); on a hit it stores
`flow_dict[(u, v)]` — the *inner dict* of the node named `(u, v)` — and
otherwise stores `0`. -/
def yeniAkis (flow_dict : FlowDict) (u v : PKey) : PVal :=
  match alookup (PKey.t2 u v) flow_dict with
  | some inner => PVal.dict inner
  | none => PVal.num 0

/-- Lines 96–100 of the source: overwrite every edge's `akis` attribute. -/
def adjYaz (flow_dict : FlowDict) (adj : Adj) : Adj :=
  adj.map fun ub => (ub.1, ub.2.map fun ve => (ve.1, { ve.2 with akis := yeniAkis flow_dict ub.1 ve.1 }))

/-- One step of the `akislar` result-building loop:
`if u not in akislar: akislar[u] = {}` then `akislar[u][v] = akis`. -/
def akislarEkle (ak : Akislar) (u v : PKey) (w : PVal) : Akislar :=
  aupsert u (aupsert v w ((alookup u ak).getD [])) ak

/-- Lines 103–107 of the source: build the `akislar` dict of dicts from the
(already mutated) edge list, in edge iteration order. -/
def akislarYap (es : List (PKey × PKey × EdgeAttr)) : Akislar :=
  es.foldl (fun ak e => akislarEkle ak e.1 e.2.1 e.2.2.akis) []

/-- Result of one call to `min_maliyet_akis_hesapla`: the object state
after the call, the returned pair `(akislar, toplam_maliyet)`, and the
error message printed on the `except` path (`none` on success). -/
structure SolveOut where
  state : ElektrikSebekesi
  akislar : Akislar
  maliyet : ℚ
  hata : Option String
deriving DecidableEq, Repr

/-- `min_maliyet_akis_hesapla()`, parameterized by the external library
routine `networkx.network_simplex` (`simplex`). Inside `try`: build
`mcf_graph`, call the solver, overwrite every edge's `akis`, build the
`akislar` dict, store both results in `self.sonuclar`, and return
`(akislar, flow_cost)`. Any exception (a `KeyError` while reading node
attributes, or the solver raising, e.g. `NetworkXUnfeasible`) is caught:
the handler prints the message and returns `({}, 0)` with the graph left
exactly as it was. -/
def min_maliyet_akis_hesapla (simplex : MCFGraph → Except String (ℚ × FlowDict))
    (s : ElektrikSebekesi) : SolveOut :=
  match buildMCF s with
  | none => { state := s, akislar := [], maliyet := 0, hata := some "KeyError: tip" }
  | some mcf =>
    match simplex mcf with
    | Except.error e => { state := s, akislar := [], maliyet := 0, hata := some e }
    | Except.ok (flow_cost, flow_dict) =>
      let s₁ := { s with adj := adjYaz flow_dict s.adj }
      let akislar := akislarYap (edgesOf s₁)
      { state := { s₁ with sonuclar_akislar := some akislar,
                           sonuclar_toplam_maliyet := some flow_cost },
        akislar := akislar, maliyet := flow_cost, hata := none }

/-- One record appended by `darbogazlari_bul`. -/
structure Darbogaz where
  hat : PKey × PKey
  kapasite : ℚ
  akis : ℚ
  kullanim_yuzdesi : ℚ
deriving DecidableEq, Repr

/-- The collection loop of `darbogazlari_bul` (lines 130–142): skip
zero-capacity edges; for the rest compute `akis / kapasite * 100` and keep
the record when it reaches the threshold. Dividing a non-numeric `akis`
value by a number raises `TypeError` (uncaught), modelled by `none`. -/
def darbogazToplama (es : List (PKey × PKey × EdgeAttr)) (esik : ℚ) :
    Option (List Darbogaz) :=
  match es with
  | [] => some []
  | (u, v, e) :: rest =>
    if e.kapasite > 0 then
      match e.akis with
      | PVal.num q =>
        match darbogazToplama rest esik with
        | some l =>
          some (if q / e.kapasite * 100 ≥ esik then
                  ⟨(u, v), e.kapasite, q, q / e.kapasite * 100⟩ :: l
                else l)
        | none => none
      | PVal.dict _ => none
    else
      darbogazToplama rest esik

/-- Comparison used to embed
`darbogazlar.sort(key=lambda x: x['kullanim_yuzdesi'], reverse=True)`:
Python's sort is stable also with `reverse=True` (equal keys keep their
original order), which is exactly `mergeSort` with this relation. -/
def dbLe (a b : Darbogaz) : Bool :=
  decide (b.kullanim_yuzdesi ≤ a.kullanim_yuzdesi)

/-- `darbogazlari_bul(esik_yuzdesi)`: collect the over-threshold records in
edge iteration order, then sort by utilization descending (stable). -/
def darbogazlari_bul (s : ElektrikSebekesi) (esik_yuzdesi : ℚ) :
    Option (List Darbogaz) :=
  match darbogazToplama (edgesOf s) esik_yuzdesi with
  | some l => some (l.mergeSort dbLe)
  | none => none

/-- Total production over the node set (the sum `rapor_olustur` computes);
nodes with an empty attribute dict contribute `0`. -/
def toplam_uretim (s : ElektrikSebekesi) : ℚ :=
  (s.nodes.map fun p => (p.2.map NodeAttr.uretim).getD 0).sum

/-- Total demand over the node set; nodes with an empty attribute dict
contribute `0`. -/
def toplam_talep (s : ElektrikSebekesi) : ℚ :=
  (s.nodes.map fun p => (p.2.map NodeAttr.talep).getD 0).sum

/-- Sum of the `demand` attributes of `mcf_graph`.
`networkx.network_simplex` raises `NetworkXUnfeasible` whenever this sum
is not zero. -/
def mcfDemandSum (m : MCFGraph) : ℚ :=
  (m.nodes.map Prod.snd).sum

/-- A node attribute record as `dugum_ekle` writes it: `net` is
`uretim - talep` and `tip` is the role string derived from the sign of
`net`. -/
def NodeAttr.iyi (a : NodeAttr) : Bool :=
  decide (a.net = a.uretim - a.talep) &&
  decide (a.tip = if a.net > 0 then "kaynak" else if a.net < 0 then "hedef" else "transfer")

/-- Every node attribute record in the graph was written by `dugum_ekle`. -/
def sebekeIyi (s : ElektrikSebekesi) : Bool :=
  s.nodes.all fun p =>
    match p.2 with
    | some a => a.iyi
    | none => true

/-- Sum of the `akis` values on the edges into node `n`. -/
def girisAkis (s : ElektrikSebekesi) (n : PKey) : ℚ :=
  (((edgesOf s).filter fun e => decide (e.2.1 = n)).map fun e => e.2.2.akis.q).sum

/-- Sum of the `akis` values on the edges out of node `n`. -/
def cikisAkis (s : ElektrikSebekesi) (n : PKey) : ℚ :=
  (((edgesOf s).filter fun e => decide (e.1 = n)).map fun e => e.2.2.akis.q).sum

/-- Balance property of the spec: for every node (with attributes), inflow
minus outflow equals the node's `net`. -/
def dengeli (s : ElektrikSebekesi) : Prop :=
  ∀ p ∈ s.nodes, ∀ a, p.2 = some a → girisAkis s p.1 - cikisAkis s p.1 = a.net

/-- Every edge's `akis` attribute currently holds a number. -/
def tumAkislarSayi (s : ElektrikSebekesi) : Bool :=
  (edgesOf s).all fun e => e.2.2.akis.isNum

/-- Stated from the spec's words, for comparison with `darbogazlari_bul`:
the records of exactly the edges with `capacity > 0` whose utilization
`flow / capacity * 100` reaches the threshold, listed in edge identity
order. -/
def secilenKayitlar (es : List (PKey × PKey × EdgeAttr)) (esik : ℚ) :
    List Darbogaz :=
  es.filterMap fun e =>
    if e.2.2.kapasite > 0 ∧ e.2.2.akis.q / e.2.2.kapasite * 100 ≥ esik then
      some ⟨(e.1, e.2.1), e.2.2.kapasite, e.2.2.akis.q, e.2.2.akis.q / e.2.2.kapasite * 100⟩
    else none

/-- Capacity-and-cost skeleton of one adjacency bucket (everything except
the mutable `akis` attribute). -/
def bucketSkel (b : List (PKey × EdgeAttr)) : List (PKey × ℚ × ℚ) :=
  b.map fun ve => (ve.1, ve.2.kapasite, ve.2.maliyet)

/-- Capacity-and-cost skeleton of the whole adjacency structure. -/
def adjSkel (adj : Adj) : List (PKey × List (PKey × ℚ × ℚ)) :=
  adj.map fun ub => (ub.1, bucketSkel ub.2)

/- Concrete inputs used by the counterexamples and witnesses below. -/

def kA : PKey := PKey.s "A"

def kB : PKey := PKey.s "B"

def kC : PKey := PKey.s "C"

/-- Two-node network: `A` produces 10, `B` demands 10, one line `A → B`
with capacity 10 and unit cost 1. -/
def exG : ElektrikSebekesi :=
  hat_ekle (dugum_ekle (dugum_ekle (sebekeYap "test") kA 0 10) kB 10 0) kA kB 10 1 0

/-- The flow dict `networkx.network_simplex` returns on `exG`'s
optimization graph (nodes `A` with demand `-10`, `B` with demand `10`,
edge `A → B` with capacity 10): a dict of dicts keyed by node, routing the
unique feasible (hence optimal) flow of 10 over `(A, B)`. -/
def exFlowDict : FlowDict := [(kA, [(kB, 10)]), (kB, [])]

/-- `networkx.network_simplex` as called on `exG`: total cost
`10 * 1 = 10` and the flow dict above. -/
def exSimplex : MCFGraph → Except String (ℚ × FlowDict) :=
  fun _ => Except.ok (10, exFlowDict)

/-- Unbalanced network: `A` produces 10, `B` demands 3 (total supply 10 ≠
total demand 3). -/
def cg : ElektrikSebekesi :=
  dugum_ekle (dugum_ekle (sebekeYap "test") kA 0 10) kB 3 0

/-- `networkx.network_simplex` as called on `cg`'s optimization graph: the
node demands sum to `-10 + 3 = -7 ≠ 0`, so the library raises
`NetworkXUnfeasible`. -/
def csimplex : MCFGraph → Except String (ℚ × FlowDict) :=
  fun _ => Except.error "NetworkXUnfeasible"

/-- Two nodes, no edges: input for the missing-edge branch of
`akis_ata`. -/
def g5 : ElektrikSebekesi :=
  dugum_ekle (dugum_ekle (sebekeYap "test") kA 0 0) kB 0 0

/-- The spec's bottleneck test network: edges with
`(capacity, flow) = (100, 95), (50, 30), (80, 80)` in that identity
order. -/
def ornekDB : ElektrikSebekesi :=
  hat_ekle (hat_ekle (hat_ekle (sebekeYap "test") kA kB 100 1 95) kA kC 50 1 30) kB kC 80 1 80

/-- `ornekDB` after a manual override pushing edge `(A, B)` to flow 150,
above its capacity 100. -/
def g9 : ElektrikSebekesi :=
  (akis_ata ornekDB kA kB 150).1

theorem alookup_aupsert_self {α : Type} (k : PKey) (v : α) (l : List (PKey × α)) :
    alookup k (aupsert k v l) = some v := by
  induction l with
  | nil => simp [aupsert, alookup]
  | cons p rest ih =>
    obtain ⟨k₁, v₁⟩ := p
    by_cases h : k = k₁
    · simp [aupsert, h, alookup]
    · simp [aupsert, h, alookup, ih]

theorem alookup_aupsert_ne {α : Type} {k k₁ : PKey} (v : α) (l : List (PKey × α))
    (h : k ≠ k₁) : alookup k (aupsert k₁ v l) = alookup k l := by
  induction l with
  | nil => simp [aupsert, alookup, h]
  | cons p rest ih =>
    obtain ⟨k₂, v₂⟩ := p
    by_cases h₂ : k₁ = k₂
    · subst h₂
      simp [aupsert, alookup, h, ih]
    · by_cases h₃ : k = k₂
      · subst h₃
        simp [aupsert, h₂, alookup]
      · simp [aupsert, h₂, alookup, h₃, ih]

theorem alookup_append_of_none {α : Type} {k : PKey} {l : List (PKey × α)}
    (l₂ : List (PKey × α)) (h : alookup k l = none) :
    alookup k (l ++ l₂) = alookup k l₂ := by
  induction l with
  | nil => simp
  | cons p rest ih =>
    obtain ⟨k₁, v₁⟩ := p
    by_cases h₁ : k = k₁
    · simp [alookup, h₁] at h
    · simp [alookup, h₁] at h ⊢
      exact ih h

theorem amem_false_iff {α : Type} (k : PKey) (l : List (PKey × α)) :
    amem k l = false ↔ alookup k l = none := by
  simp [amem, Option.isSome]
  constructor
  · intro h
    cases hl : alookup k l with
    | none => rfl
    | some v => simp [hl] at h
  · intro h
    simp [h]

theorem bucketSkel_aupsert {hk : PKey} {e : EdgeAttr} (e' : EdgeAttr)
    {b : List (PKey × EdgeAttr)} (hb : alookup hk b = some e)
    (h₁ : e'.kapasite = e.kapasite) (h₂ : e'.maliyet = e.maliyet) :
    bucketSkel (aupsert hk e' b) = bucketSkel b := by
  induction b with
  | nil => simp [alookup] at hb
  | cons p rest ih =>
    obtain ⟨k₁, v₁⟩ := p
    by_cases h : hk = k₁
    · subst h
      simp [alookup] at hb
      subst hb
      simp [aupsert, bucketSkel, h₁, h₂]
    · simp [alookup, h] at hb
      simp [aupsert, h, bucketSkel] at ih ⊢
      exact ih hb

theorem adjSkel_aupsert {k : PKey} {b : List (PKey × EdgeAttr)}
    (b' : List (PKey × EdgeAttr)) {adj : Adj} (hb : alookup k adj = some b)
    (hsk : bucketSkel b' = bucketSkel b) :
    adjSkel (aupsert k b' adj) = adjSkel adj := by
  induction adj with
  | nil => simp [alookup] at hb
  | cons p rest ih =>
    obtain ⟨k₁, b₁⟩ := p
    by_cases h : k = k₁
    · subst h
      simp [alookup] at hb
      subst hb
      simp [aupsert, adjSkel, hsk]
    · simp [alookup, h] at hb
      simp [aupsert, h, adjSkel] at ih ⊢
      exact ih hb

/-- `akis_ata` changes at most one edge's `akis` attribute: the name, the
node dict, the results cache and the capacity-and-cost skeleton of the
adjacency structure are all preserved. -/
theorem akisAtaKorur (s : ElektrikSebekesi) (k h : PKey) (v : ℚ) :
    ((akis_ata s k h v).1.ad = s.ad) ∧
    ((akis_ata s k h v).1.nodes = s.nodes) ∧
    (adjSkel (akis_ata s k h v).1.adj = adjSkel s.adj) ∧
    ((akis_ata s k h v).1.sonuclar_akislar = s.sonuclar_akislar) ∧
    ((akis_ata s k h v).1.sonuclar_toplam_maliyet = s.sonuclar_toplam_maliyet) := by
  cases hb : alookup k s.adj with
  | none => simp [akis_ata, hb]
  | some bucket =>
    cases he : alookup h bucket with
    | none => simp [akis_ata, hb, he]
    | some e =>
      have hadj : (akis_ata s k h v).1.adj =
          aupsert k (aupsert h { e with akis := PVal.num v } bucket) s.adj := by
        simp [akis_ata, hb, he]
      refine ⟨by simp [akis_ata, hb, he], by simp [akis_ata, hb, he], ?_,
        by simp [akis_ata, hb, he], by simp [akis_ata, hb, he]⟩
      rw [hadj]
      exact adjSkel_aupsert _ hb (bucketSkel_aupsert _ he rfl rfl)

/-- Rewriting `adjYaz` through the skeleton: the written adjacency depends
only on the capacity-and-cost skeleton (and the flow dict). -/
theorem adjYaz_eq_skel (fd : FlowDict) (adj : Adj) :
    adjYaz fd adj = (adjSkel adj).map
      (fun ub => (ub.1, ub.2.map fun x => (x.1, EdgeAttr.mk x.2.1 x.2.2 (yeniAkis fd ub.1 x.1)))) := by
  simp [adjYaz, adjSkel, bucketSkel, List.map_map, Function.comp]

theorem adjYaz_congr (fd : FlowDict) {a₁ a₂ : Adj} (h : adjSkel a₁ = adjSkel a₂) :
    adjYaz fd a₁ = adjYaz fd a₂ := by
  rw [adjYaz_eq_skel, adjYaz_eq_skel, h]

theorem adjSkel_adjYaz (fd : FlowDict) (adj : Adj) :
    adjSkel (adjYaz fd adj) = adjSkel adj := by
  simp [adjYaz, adjSkel, bucketSkel, List.map_map, Function.comp]

theorem bucketSkel_getD {a₁ a₂ : Adj} (h : adjSkel a₁ = adjSkel a₂) (k : PKey) :
    bucketSkel ((alookup k a₁).getD []) = bucketSkel ((alookup k a₂).getD []) := by
  induction a₁ generalizing a₂ with
  | nil =>
    have : a₂ = [] := by
      cases a₂ with
      | nil => rfl
      | cons q r₂ => simp [adjSkel] at h
    subst this
    rfl
  | cons p r ih =>
    cases a₂ with
    | nil => simp [adjSkel] at h
    | cons q r₂ =>
      simp [adjSkel] at h
      obtain ⟨⟨hk, hbs⟩, hrest⟩ := h
      by_cases hkk : k = p.1
      · simp [alookup, hkk, ← hk, hbs]
      · have hkq : ¬ (k = q.1) := by rw [← hk]; exact hkk
        simp [alookup, hkk, hkq]
        exact ih hrest

theorem flatMapCong {α β : Type} {l : List α} {f g : α → List β}
    (h : ∀ a ∈ l, f a = g a) : l.flatMap f = l.flatMap g := by
  induction l with
  | nil => rfl
  | cons a rest ih =>
    simp only [List.flatMap_cons]
    rw [h a (by simp), ih fun x hx => h x (by simp [hx])]

theorem edgesOf_congr {s₁ s₂ : ElektrikSebekesi} (hn : s₁.nodes = s₂.nodes)
    (ha : s₁.adj = s₂.adj) : edgesOf s₁ = edgesOf s₂ := by
  simp [edgesOf, hn, ha]

/-- The `capacity`/`weight` edge list of `mcf_graph` depends only on the
node dict and the capacity-and-cost skeleton of the adjacency. -/
theorem mcfEdges_congr {s₁ s₂ : ElektrikSebekesi} (hn : s₁.nodes = s₂.nodes)
    (hsk : adjSkel s₁.adj = adjSkel s₂.adj) :
    (edgesOf s₁).map (fun e => (e.1, e.2.1, e.2.2.kapasite, e.2.2.maliyet)) =
    (edgesOf s₂).map (fun e => (e.1, e.2.1, e.2.2.kapasite, e.2.2.maliyet)) := by
  unfold edgesOf
  rw [hn]
  rw [List.map_flatMap, List.map_flatMap]
  apply flatMapCong
  intro n _
  have hb := bucketSkel_getD hsk n.1
  have expand : ∀ (b : List (PKey × EdgeAttr)),
      (b.map fun ve => (n.1, ve.1, ve.2)).map
        (fun e => (e.1, e.2.1, e.2.2.kapasite, e.2.2.maliyet)) =
      (bucketSkel b).map (fun x => (n.1, x.1, x.2.1, x.2.2)) := by
    intro b
    simp [bucketSkel, List.map_map, Function.comp]
  rw [expand, expand, hb]

theorem buildMCF_congr {s₁ s₂ : ElektrikSebekesi} (hn : s₁.nodes = s₂.nodes)
    (hsk : adjSkel s₁.adj = adjSkel s₂.adj) : buildMCF s₁ = buildMCF s₂ := by
  unfold buildMCF
  rw [hn, mcfEdges_congr hn hsk]

/-- Congruence for the whole solve call: its returned pair, its printed
error and (on success) its final state depend only on the name, the node
dict, the capacity-and-cost skeleton of the adjacency, and the results
cache — never on the edges' current `akis` values. -/
theorem solveCong (simplex : MCFGraph → Except String (ℚ × FlowDict))
    {s₁ s₂ : ElektrikSebekesi} (had : s₁.ad = s₂.ad) (hn : s₁.nodes = s₂.nodes)
    (hsk : adjSkel s₁.adj = adjSkel s₂.adj)
    (hr₁ : s₁.sonuclar_akislar = s₂.sonuclar_akislar)
    (hr₂ : s₁.sonuclar_toplam_maliyet = s₂.sonuclar_toplam_maliyet) :
    (min_maliyet_akis_hesapla simplex s₁).akislar =
      (min_maliyet_akis_hesapla simplex s₂).akislar ∧
    (min_maliyet_akis_hesapla simplex s₁).maliyet =
      (min_maliyet_akis_hesapla simplex s₂).maliyet ∧
    (min_maliyet_akis_hesapla simplex s₁).hata =
      (min_maliyet_akis_hesapla simplex s₂).hata ∧
    ((min_maliyet_akis_hesapla simplex s₁).hata = none →
      (min_maliyet_akis_hesapla simplex s₁).state =
        (min_maliyet_akis_hesapla simplex s₂).state) := by
  have hb : buildMCF s₁ = buildMCF s₂ := buildMCF_congr hn hsk
  cases hbm : buildMCF s₂ with
  | none =>
    rw [hbm] at hb
    simp [min_maliyet_akis_hesapla, hb, hbm]
  | some mcf =>
    rw [hbm] at hb
    cases hsx : simplex mcf with
    | error e =>
      simp [min_maliyet_akis_hesapla, hb, hbm, hsx]
    | ok p =>
      obtain ⟨flow_cost, flow_dict⟩ := p
      have hyaz : adjYaz flow_dict s₁.adj = adjYaz flow_dict s₂.adj :=
        adjYaz_congr flow_dict hsk
      have hedges : edgesOf { s₁ with adj := adjYaz flow_dict s₁.adj } =
          edgesOf { s₂ with adj := adjYaz flow_dict s₂.adj } :=
        edgesOf_congr hn hyaz
      simp [min_maliyet_akis_hesapla, hb, hbm, hsx, hedges, hyaz, had, hn, hr₁, hr₂]

theorem mcfDemand_iyi (a : NodeAttr) (h : a.iyi = true) :
    mcfDemand a = a.talep - a.uretim := by
  unfold NodeAttr.iyi at h
  rw [Bool.and_eq_true, decide_eq_true_eq, decide_eq_true_eq] at h
  obtain ⟨hnet, htip⟩ := h
  rcases lt_trichotomy a.net 0 with hneg | hzero | hpos
  · have ht : a.tip = "hedef" := by
      rw [htip, if_neg (by linarith), if_pos hneg]
    unfold mcfDemand
    rw [ht]
    rw [if_neg (by decide), if_pos rfl, abs_of_neg hneg]
    rw [hnet]
    ring
  · have ht : a.tip = "transfer" := by
      rw [htip, if_neg (by simp [hzero]), if_neg (by simp [hzero])]
    unfold mcfDemand
    rw [ht]
    rw [if_neg (by decide), if_neg (by decide)]
    have : a.uretim - a.talep = 0 := by rw [← hnet, hzero]
    linarith
  · have ht : a.tip = "kaynak" := by
      rw [htip, if_pos hpos]
    unfold mcfDemand
    rw [ht, if_pos rfl, hnet]
    ring

theorem mcfNodesYap_demand_sum (l : List (PKey × Option NodeAttr))
    (ns : List (PKey × ℚ))
    (hiyi : (l.all fun p => match p.2 with | some a => a.iyi | none => true) = true)
    (hm : mcfNodesYap l = some ns) :
    (ns.map Prod.snd).sum =
      (l.map fun p => (p.2.map NodeAttr.talep).getD 0).sum -
      (l.map fun p => (p.2.map NodeAttr.uretim).getD 0).sum := by
  induction l generalizing ns with
  | nil =>
    simp [mcfNodesYap] at hm
    subst hm
    simp
  | cons p rest ih =>
    obtain ⟨k, oa⟩ := p
    cases oa with
    | none => simp [mcfNodesYap] at hm
    | some a =>
      simp only [List.all_cons, Bool.and_eq_true] at hiyi
      obtain ⟨h₁, h₂⟩ := hiyi
      simp only [mcfNodesYap, Option.map_eq_some'] at hm
      obtain ⟨ns', hns', rfl⟩ := hm
      have := ih ns' h₂ hns'
      simp only [List.map_cons, List.sum_cons, this, Option.map_some, Option.getD_some]
      rw [mcfDemand_iyi a h₁]
      simp only [Option.map_some', Option.getD_some]
      ring

/-- When every node attribute record was written by `dugum_ekle` and
`mcf_graph` is successfully built, the sum of its `demand` attributes is
total demand minus total supply; `networkx.network_simplex` raises
`NetworkXUnfeasible` whenever this is nonzero. -/
theorem mcfDemandSum_eq {s : ElektrikSebekesi} {m : MCFGraph}
    (hiyi : sebekeIyi s = true) (hm : buildMCF s = some m) :
    mcfDemandSum m = toplam_talep s - toplam_uretim s := by
  unfold buildMCF at hm
  rw [Option.map_eq_some'] at hm
  obtain ⟨ns, hns, rfl⟩ := hm
  exact mcfNodesYap_demand_sum s.nodes ns hiyi hns

theorem darbogazToplamaEq (es : List (PKey × PKey × EdgeAttr)) (esik : ℚ)
    (h : (es.all fun e => e.2.2.akis.isNum) = true) :
    darbogazToplama es esik = some (secilenKayitlar es esik) := by
  induction es with
  | nil => rfl
  | cons e rest ih =>
    obtain ⟨u, v, ea⟩ := e
    simp only [List.all_cons, Bool.and_eq_true] at h
    obtain ⟨h₁, h₂⟩ := h
    cases hak : ea.akis with
    | dict d => rw [hak] at h₁; simp [PVal.isNum] at h₁
    | num q =>
      by_cases hkap : ea.kapasite > 0
      · by_cases hcond : q / ea.kapasite * 100 ≥ esik
        · simp [darbogazToplama, hkap, hak, ih h₂, secilenKayitlar, hcond, PVal.q,
            List.filterMap_cons]
        · simp [darbogazToplama, hkap, hak, ih h₂, secilenKayitlar, hcond, PVal.q,
            List.filterMap_cons]
      · simp [darbogazToplama, hkap, hak, ih h₂, secilenKayitlar, PVal.q,
          List.filterMap_cons]

theorem dbLeTrans (a b c : Darbogaz) (hab : dbLe a b) (hbc : dbLe b c) :
    dbLe a c := by
  simp only [dbLe, decide_eq_true_eq] at *
  exact le_trans hbc hab

theorem dbLeTotal (a b : Darbogaz) : dbLe a b || dbLe b a := by
  simp only [dbLe, Bool.or_eq_true, decide_eq_true_eq]
  exact le_total _ _

/-- C1: the claim says that after a successful solve every edge's `akis`
field and the returned `akislar` dict hold the flows computed by the
min-cost-flow optimization. On the two-node network `exG` the solver
(`network_simplex`, whose documented return value on this instance is
`exFlowDict` with flow 10 on `(A, B)` and cost 10) computes flow 10, yet
the write-back loop tests `(u, v) in flow_dict` against a dict keyed by
node, which never holds, so the code stores `0` into the edge and returns
`0` in `akislar` (while still returning the true cost 10). -/
theorem c1_akis_yazim_hatasi :
    (min_maliyet_akis_hesapla exSimplex exG).hata = none ∧
    alookup kB ((alookup kA exFlowDict).getD []) = some 10 ∧
    hatAkisi (min_maliyet_akis_hesapla exSimplex exG).state kA kB = some (PVal.num 0) ∧
    alookup kB ((alookup kA (min_maliyet_akis_hesapla exSimplex exG).akislar).getD []) =
      some (PVal.num 0) ∧
    (min_maliyet_akis_hesapla exSimplex exG).maliyet = 10 := by
  refine ⟨?_, ?_, ?_, ?_, ?_⟩ <;> decide

/-- C3: the claim says that after a successful solve every node is
balanced (`inflow - outflow = net`). On `exG` the solve succeeds, but the
flows written back are all `0` (see C1), so node `A` — whose `net` is
`10` — has `inflow - outflow = 0`: the balance property fails. -/
theorem c3_denge_bozuk :
    (min_maliyet_akis_hesapla exSimplex exG).hata = none ∧
    (kA, some ⟨0, 10, 10, "kaynak"⟩) ∈ (min_maliyet_akis_hesapla exSimplex exG).state.nodes ∧
    girisAkis (min_maliyet_akis_hesapla exSimplex exG).state kA -
      cikisAkis (min_maliyet_akis_hesapla exSimplex exG).state kA = 0 ∧
    ¬ dengeli (min_maliyet_akis_hesapla exSimplex exG).state := by
  have hmem : (kA, some (NodeAttr.mk 0 10 10 "kaynak")) ∈
      (min_maliyet_akis_hesapla exSimplex exG).state.nodes := by
    simp +decide [min_maliyet_akis_hesapla, exSimplex, exG, buildMCF, mcfNodesYap, edgesOf,
      adjYaz, yeniAkis, akislarYap, akislarEkle, alookup, aupsert, amem, hat_ekle, dugum_ekle,
      sebekeYap, kA, kB, mcfDemand, exFlowDict]
  have hz : girisAkis (min_maliyet_akis_hesapla exSimplex exG).state kA -
      cikisAkis (min_maliyet_akis_hesapla exSimplex exG).state kA = 0 := by
    simp +decide [girisAkis, cikisAkis, min_maliyet_akis_hesapla, exSimplex, exG, buildMCF,
      mcfNodesYap, edgesOf, adjYaz, yeniAkis, akislarYap, akislarEkle, alookup, aupsert, amem,
      hat_ekle, dugum_ekle, sebekeYap, kA, kB, mcfDemand, exFlowDict, PVal.q]
  refine ⟨by decide, hmem, hz, ?_⟩
  intro hd
  have h := hd (kA, some ⟨0, 10, 10, "kaynak"⟩) hmem ⟨0, 10, 10, "kaynak"⟩ rfl
  rw [hz] at h
  norm_num at h

/-- C2 counterexample: on the unbalanced network `cg` (total supply 10,
total demand 3) the claim predicts an `InfeasibleNetworkError` failure
outcome; the code instead catches the library's `NetworkXUnfeasible`
exception, prints it, and returns the pair `({}, 0)` — an empty flow dict
and zero cost — as a normal return value, with the graph unchanged. -/
theorem c2_karsi_ornek :
    toplam_uretim cg = 10 ∧ toplam_talep cg = 3 ∧
    min_maliyet_akis_hesapla csimplex cg =
      { state := cg, akislar := [], maliyet := 0, hata := some "NetworkXUnfeasible" } := by
  refine ⟨?_, ?_, ?_⟩
  · simp +decide [toplam_uretim, cg, dugum_ekle, sebekeYap, aupsert, kA, kB]
  · simp +decide [toplam_talep, cg, dugum_ekle, sebekeYap, aupsert, kA, kB]
  · simp +decide [min_maliyet_akis_hesapla, csimplex, cg, buildMCF, mcfNodesYap, dugum_ekle,
      sebekeYap, aupsert, kA, kB, mcfDemand]

/-- C2 (amended): for every graph (with `dugum_ekle`-written node
attributes) whose total supply differs from total demand, and any
`simplex` honouring the `network_simplex` contract of raising when the
node demands do not sum to zero, `min_maliyet_akis_hesapla` catches the
exception and returns `({}, 0)` with the graph left unchanged; the error
is reported only through the printed message, never as an
`InfeasibleNetworkError` outcome, and the returned value is exactly the
zero result the original claim said is never produced. -/
theorem c2_duzeltilmis (simplex : MCFGraph → Except String (ℚ × FlowDict))
    (s : ElektrikSebekesi) (hiyi : sebekeIyi s = true)
    (hne : toplam_uretim s ≠ toplam_talep s)
    (hsim : ∀ m, mcfDemandSum m ≠ 0 → ∃ msg, simplex m = Except.error msg) :
    ∃ msg, min_maliyet_akis_hesapla simplex s =
      { state := s, akislar := [], maliyet := 0, hata := some msg } := by
  cases hb : buildMCF s with
  | none =>
    exact ⟨"KeyError: tip", by simp [min_maliyet_akis_hesapla, hb]⟩
  | some m =>
    have hsum : mcfDemandSum m ≠ 0 := by
      rw [mcfDemandSum_eq hiyi hb]
      intro h
      exact hne (sub_eq_zero.mp h).symm
    obtain ⟨msg, hmsg⟩ := hsim m hsum
    exact ⟨msg, by simp [min_maliyet_akis_hesapla, hb, hmsg]⟩

/-- C2 witness: the amended statement applied to the concrete unbalanced
network `cg` and the concrete `NetworkXUnfeasible`-raising solver. -/
theorem c2_tanik :
    sebekeIyi cg = true ∧ toplam_uretim cg ≠ toplam_talep cg ∧
    ∃ msg, min_maliyet_akis_hesapla csimplex cg =
      { state := cg, akislar := [], maliyet := 0, hata := some msg } :=
  ⟨by simp +decide [sebekeIyi, cg, dugum_ekle, sebekeYap, aupsert, kA, kB, NodeAttr.iyi],
    by simp +decide [toplam_uretim, toplam_talep, cg, dugum_ekle, sebekeYap, aupsert, kA, kB],
    c2_duzeltilmis csimplex cg
      (by simp +decide [sebekeIyi, cg, dugum_ekle, sebekeYap, aupsert, kA, kB, NodeAttr.iyi])
      (by simp +decide [toplam_uretim, toplam_talep, cg, dugum_ekle, sebekeYap, aupsert, kA, kB])
      (fun _ _ => ⟨"NetworkXUnfeasible", rfl⟩)⟩

/-- C5 counterexample: on `g5` (two nodes, no edges) the claim predicts
that `akis_ata` fails with `EdgeNotFoundError`; the code instead returns
normally with the graph unchanged, reporting the problem only through a
printed message (second component). -/
theorem c5_karsi_ornek :
    hatVar g5 kA kB = false ∧
    akis_ata g5 kA kB 5 = (g5, some "Hata: hat bulunamadi") := by
  constructor
  · simp +decide [hatVar, g5, dugum_ekle, sebekeYap, aupsert, alookup, kA, kB]
  · simp +decide [akis_ata, g5, dugum_ekle, sebekeYap, aupsert, alookup, kA, kB]

/-- C5 (amended): when no edge exists between the ordered pair,
`akis_ata` prints an error message and returns the object unchanged (it
does not raise `EdgeNotFoundError`); when the edge exists it overwrites
the edge's `akis` attribute with the given value unconditionally — the
value `v` is arbitrary and is never clamped to the capacity — leaving the
name, nodes, capacities, costs and results cache untouched. -/
theorem c5_duzeltilmis (s : ElektrikSebekesi) (k h : PKey) (v : ℚ) :
    (hatVar s k h = false → akis_ata s k h v = (s, some "Hata: hat bulunamadi")) ∧
    (hatVar s k h = true →
      (akis_ata s k h v).2 = none ∧
      hatAkisi (akis_ata s k h v).1 k h = some (PVal.num v) ∧
      (akis_ata s k h v).1.ad = s.ad ∧
      (akis_ata s k h v).1.nodes = s.nodes ∧
      adjSkel (akis_ata s k h v).1.adj = adjSkel s.adj ∧
      (akis_ata s k h v).1.sonuclar_akislar = s.sonuclar_akislar ∧
      (akis_ata s k h v).1.sonuclar_toplam_maliyet = s.sonuclar_toplam_maliyet) := by
  constructor
  · intro hv
    cases hb : alookup k s.adj with
    | none => simp [akis_ata, hb]
    | some bucket =>
      cases he : alookup h bucket with
      | some e =>
        exfalso
        rw [hatVar, hb] at hv
        simp [he] at hv
      | none => simp [akis_ata, hb, he]
  · intro hv
    cases hb : alookup k s.adj with
    | none =>
      exfalso
      rw [hatVar, hb] at hv
      simp [alookup] at hv
    | some bucket =>
      cases he : alookup h bucket with
      | none =>
        exfalso
        rw [hatVar, hb] at hv
        simp [he] at hv
      | some e =>
        obtain ⟨had, hn, hsk, hr₁, hr₂⟩ := akisAtaKorur s k h v
        have hadj : (akis_ata s k h v).1.adj =
            aupsert k (aupsert h { e with akis := PVal.num v } bucket) s.adj := by
          simp [akis_ata, hb, he]
        refine ⟨by simp [akis_ata, hb, he], ?_, had, hn, hsk, hr₁, hr₂⟩
        simp [hatAkisi, hadj, alookup_aupsert_self]

/-- C5 witness: both branches of the amended statement at concrete
inputs — the missing edge `(A, B)` of `g5`, and the existing edge
`(A, B)` of `ornekDB` overwritten with 150, above its capacity 100. -/
theorem c5_tanik :
    akis_ata g5 kA kB 5 = (g5, some "Hata: hat bulunamadi") ∧
    (akis_ata ornekDB kA kB 150).2 = none ∧
    hatAkisi (akis_ata ornekDB kA kB 150).1 kA kB = some (PVal.num 150) :=
  ⟨(c5_duzeltilmis g5 kA kB 5).1
      (by simp +decide [hatVar, g5, dugum_ekle, sebekeYap, aupsert, alookup, kA, kB]),
    ((c5_duzeltilmis ornekDB kA kB 150).2
      (by simp +decide [hatVar, ornekDB, hat_ekle, sebekeYap, aupsert, alookup, amem, kA, kB, kC])).1,
    ((c5_duzeltilmis ornekDB kA kB 150).2
      (by simp +decide [hatVar, ornekDB, hat_ekle, sebekeYap, aupsert, alookup, amem, kA, kB, kC])).2.1⟩

theorem alookup_append_of_some {α : Type} {k : PKey} {l : List (PKey × α)} {v : α}
    (l₂ : List (PKey × α)) (h : alookup k l = some v) :
    alookup k (l ++ l₂) = some v := by
  induction l with
  | nil => simp [alookup] at h
  | cons p rest ih =>
    obtain ⟨k₁, v₁⟩ := p
    by_cases hk : k = k₁
    · simp [alookup, hk] at h ⊢
      exact h
    · simp [alookup, hk] at h ⊢
      exact ih h

theorem amem_append_left {α : Type} {k : PKey} {l : List (PKey × α)}
    (l₂ : List (PKey × α)) (h : amem k l = true) : amem k (l ++ l₂) = true := by
  rw [amem, Option.isSome_iff_exists] at h
  obtain ⟨v, hv⟩ := h
  rw [amem, alookup_append_of_some l₂ hv]
  rfl

theorem amem_append_self {α : Type} (k : PKey) (v : α) (l : List (PKey × α)) :
    amem k (l ++ [(k, v)]) = true := by
  by_cases hk : amem k l
  · exact amem_append_left _ hk
  · have hnone : alookup k l = none := (amem_false_iff k l).mp (by simpa using hk)
    rw [amem, alookup_append_of_none _ hnone]
    simp [alookup]

theorem alookup_some_mem {α : Type} {k : PKey} {l : List (PKey × α)} {v : α}
    (h : alookup k l = some v) : (k, v) ∈ l := by
  induction l with
  | nil => simp [alookup] at h
  | cons p rest ih =>
    obtain ⟨k₁, v₁⟩ := p
    by_cases hk : k = k₁
    · simp [alookup, hk] at h
      simp [hk, h]
    · simp [alookup, hk] at h
      simp [ih h]

theorem mcfNodesYap_none {l : List (PKey × Option NodeAttr)} {p : PKey × Option NodeAttr}
    (hp : p ∈ l) (hnone : p.2 = none) : mcfNodesYap l = none := by
  induction l with
  | nil => simp at hp
  | cons q rest ih =>
    obtain ⟨k, oa⟩ := q
    rcases List.mem_cons.mp hp with h | h
    · subst h
      simp only at hnone
      subst hnone
      rfl
    · cases oa with
      | none => rfl
      | some a => simp [mcfNodesYap, ih h]

/-- C4 counterexample: adding an edge between two unknown node ids on an
empty graph does not fail with `UnknownNodeError`; `add_edge` silently
appends both endpoints as attribute-less nodes and creates the edge, and
the damage surfaces only later, when a solve attempt on the graph takes
its exception path (`buildMCF` is `none`). -/
theorem c4_karsi_ornek :
    amem kA (sebekeYap "bos").nodes = false ∧
    (hat_ekle (sebekeYap "bos") kA kB 5 1 0).nodes = [(kA, none), (kB, none)] ∧
    hatVar (hat_ekle (sebekeYap "bos") kA kB 5 1 0) kA kB = true ∧
    buildMCF (hat_ekle (sebekeYap "bos") kA kB 5 1 0) = none := by
  refine ⟨?_, ?_, ?_, ?_⟩
  · simp +decide [amem, alookup, sebekeYap]
  · simp +decide [hat_ekle, sebekeYap, amem, alookup, aupsert, kA, kB]
  · simp +decide [hatVar, hat_ekle, sebekeYap, amem, alookup, aupsert, kA, kB]
  · simp +decide [buildMCF, mcfNodesYap, hat_ekle, sebekeYap, amem, alookup, aupsert, kA, kB]

/-- C4 (amended): `hat_ekle` never fails. After the call both endpoints
are present in the node dict and the edge exists; an endpoint that was
absent beforehand has been silently appended with an empty attribute dict
(`none`), and in that case any later solve call fails (`buildMCF` is
`none`, so `min_maliyet_akis_hesapla` takes its exception path) — the
unknown-node problem is deferred to solve time rather than raised at
edge-add time. -/
theorem c4_duzeltilmis (s : ElektrikSebekesi) (k h : PKey) (kap mal ak : ℚ) :
    amem k (hat_ekle s k h kap mal ak).nodes = true ∧
    amem h (hat_ekle s k h kap mal ak).nodes = true ∧
    hatVar (hat_ekle s k h kap mal ak) k h = true ∧
    (hat_ekle s k h kap mal ak).ad = s.ad ∧
    (amem k s.nodes = false → alookup k (hat_ekle s k h kap mal ak).nodes = some none) ∧
    (amem h s.nodes = false → alookup h (hat_ekle s k h kap mal ak).nodes = some none) ∧
    (amem k s.nodes = false → buildMCF (hat_ekle s k h kap mal ak) = none) ∧
    (amem h s.nodes = false → buildMCF (hat_ekle s k h kap mal ak) = none) := by
  set n₁ := if amem k s.nodes then s.nodes else s.nodes ++ [(k, none)] with hn₁
  set n₂ := if amem h n₁ then n₁ else n₁ ++ [(h, none)] with hn₂
  have hne : (hat_ekle s k h kap mal ak).nodes = n₂ := rfl
  have hkn₁ : amem k n₁ = true := by
    by_cases hk : amem k s.nodes
    · simp [hn₁, hk]
    · rw [hn₁, if_neg hk]
      exact amem_append_self k none s.nodes
  have hkn₂ : amem k n₂ = true := by
    by_cases hh : amem h n₁
    · simp [hn₂, hh, hkn₁]
    · rw [hn₂, if_neg hh]
      exact amem_append_left _ hkn₁
  have hhn₂ : amem h n₂ = true := by
    by_cases hh : amem h n₁
    · simp [hn₂, hh]
    · rw [hn₂, if_neg hh]
      exact amem_append_self h none n₁
  have hksome : amem k s.nodes = false → alookup k n₂ = some none := by
    intro hk
    have hnone : alookup k s.nodes = none := (amem_false_iff k s.nodes).mp hk
    have h1 : alookup k n₁ = some none := by
      rw [hn₁, if_neg (by simp [hk])]
      rw [alookup_append_of_none _ hnone]
      simp [alookup]
    by_cases hh : amem h n₁
    · simp [hn₂, hh, h1]
    · rw [hn₂, if_neg hh]
      exact alookup_append_of_some _ h1
  have hhsome : amem h s.nodes = false → alookup h n₂ = some none := by
    intro hh0
    have hh0' : alookup h s.nodes = none := (amem_false_iff h s.nodes).mp hh0
    by_cases hh1 : amem h n₁
    · by_cases hk : amem k s.nodes
      · exfalso
        rw [hn₁, if_pos hk] at hh1
        rw [hh1] at hh0
        simp at hh0
      · have hlook : alookup h n₁ = alookup h [(k, none)] := by
          rw [hn₁, if_neg hk]
          exact alookup_append_of_none _ hh0'
        by_cases hhk : h = k
        · have hsome : alookup h n₁ = some none := by
            rw [hlook]
            simp [alookup, hhk]
          simp [hn₂, hh1, hsome]
        · exfalso
          have : alookup h n₁ = none := by
            rw [hlook]
            simp [alookup, hhk]
          rw [amem, this] at hh1
          simp at hh1
    · have hnone₁ : alookup h n₁ = none := (amem_false_iff h n₁).mp (by simpa using hh1)
      rw [hn₂, if_neg hh1]
      rw [alookup_append_of_none _ hnone₁]
      simp [alookup]
  have hbuild : ∀ x : PKey, alookup x n₂ = some none →
      buildMCF (hat_ekle s k h kap mal ak) = none := by
    intro x hx
    have hmem : (x, (none : Option NodeAttr)) ∈ n₂ := alookup_some_mem hx
    have hyap : mcfNodesYap (hat_ekle s k h kap mal ak).nodes = none := by
      rw [hne]
      exact mcfNodesYap_none hmem rfl
    simp [buildMCF, hyap]
  refine ⟨by rw [hne]; exact hkn₂, by rw [hne]; exact hhn₂, ?_, rfl,
    fun hk => by rw [hne]; exact hksome hk,
    fun hh => by rw [hne]; exact hhsome hh,
    fun hk => hbuild k (hksome hk),
    fun hh => hbuild h (hhsome hh)⟩
  have hadj : (hat_ekle s k h kap mal ak).adj =
      aupsert k (aupsert h ⟨kap, mal, PVal.num ak⟩ ((alookup k s.adj).getD [])) s.adj := rfl
  simp [hatVar, hadj, alookup_aupsert_self]

/-- C4 witness: the amended statement applied on the empty graph, where
both endpoints are initially absent. -/
theorem c4_tanik :
    alookup kA (hat_ekle (sebekeYap "bos") kA kB 5 1 0).nodes = some none ∧
    alookup kB (hat_ekle (sebekeYap "bos") kA kB 5 1 0).nodes = some none ∧
    hatVar (hat_ekle (sebekeYap "bos") kA kB 5 1 0) kA kB = true ∧
    buildMCF (hat_ekle (sebekeYap "bos") kA kB 5 1 0) = none := by
  have hk : amem kA (sebekeYap "bos").nodes = false := by
    simp +decide [amem, alookup, sebekeYap]
  have hh : amem kB (sebekeYap "bos").nodes = false := by
    simp +decide [amem, alookup, sebekeYap]
  have H := c4_duzeltilmis (sebekeYap "bos") kA kB 5 1 0
  exact ⟨H.2.2.2.2.1 hk, H.2.2.2.2.2.1 hh, H.2.2.1, H.2.2.2.2.2.2.1 hk⟩

/-- C7: the solve output is independent of the edges' current flow values.
Overwriting any edge's flow through `akis_ata` before solving changes
neither the returned `(akislar, maliyet)` pair nor the printed error, and
when the solve succeeds the two final object states coincide entirely:
`min_maliyet_akis_hesapla` reads only the node attributes and the edges'
capacities and costs, and recomputes every flow from scratch. -/
theorem c7_cozum_bagimsiz (simplex : MCFGraph → Except String (ℚ × FlowDict))
    (s : ElektrikSebekesi) (k h : PKey) (v : ℚ) :
    (min_maliyet_akis_hesapla simplex (akis_ata s k h v).1).akislar =
      (min_maliyet_akis_hesapla simplex s).akislar ∧
    (min_maliyet_akis_hesapla simplex (akis_ata s k h v).1).maliyet =
      (min_maliyet_akis_hesapla simplex s).maliyet ∧
    (min_maliyet_akis_hesapla simplex (akis_ata s k h v).1).hata =
      (min_maliyet_akis_hesapla simplex s).hata ∧
    ((min_maliyet_akis_hesapla simplex (akis_ata s k h v).1).hata = none →
      (min_maliyet_akis_hesapla simplex (akis_ata s k h v).1).state =
        (min_maliyet_akis_hesapla simplex s).state) := by
  obtain ⟨had, hn, hsk, hr₁, hr₂⟩ := akisAtaKorur s k h v
  exact solveCong simplex had hn hsk hr₁ hr₂

/-- C7 witness: on the two-node network `exG`, overwriting the flow of
edge `(A, B)` to 7 before solving leaves the solve's returned pair, error
and final state unchanged. -/
theorem c7_tanik :
    (min_maliyet_akis_hesapla exSimplex (akis_ata exG kA kB 7).1).akislar =
      (min_maliyet_akis_hesapla exSimplex exG).akislar ∧
    (min_maliyet_akis_hesapla exSimplex (akis_ata exG kA kB 7).1).maliyet =
      (min_maliyet_akis_hesapla exSimplex exG).maliyet ∧
    (min_maliyet_akis_hesapla exSimplex (akis_ata exG kA kB 7).1).hata =
      (min_maliyet_akis_hesapla exSimplex exG).hata ∧
    (min_maliyet_akis_hesapla exSimplex (akis_ata exG kA kB 7).1).state =
      (min_maliyet_akis_hesapla exSimplex exG).state := by
  have H := c7_cozum_bagimsiz exSimplex exG kA kB 7
  refine ⟨H.1, H.2.1, H.2.2.1, H.2.2.2 ?_⟩
  rw [H.2.2.1]
  decide

/-- C8: whenever the solve call fails (its `except` branch runs, printing
a message), the object is left exactly as it was: the state is unchanged,
and in particular every edge's `akis` attribute keeps its prior value. -/
theorem c8_basarisiz_dokunmaz (simplex : MCFGraph → Except String (ℚ × FlowDict))
    (s : ElektrikSebekesi)
    (hfail : (min_maliyet_akis_hesapla simplex s).hata ≠ none) :
    (min_maliyet_akis_hesapla simplex s).state = s ∧
    ∀ u v, hatAkisi (min_maliyet_akis_hesapla simplex s).state u v = hatAkisi s u v := by
  have hstate : (min_maliyet_akis_hesapla simplex s).state = s := by
    cases hb : buildMCF s with
    | none => simp [min_maliyet_akis_hesapla, hb]
    | some mcf =>
      cases hsx : simplex mcf with
      | error e => simp [min_maliyet_akis_hesapla, hb, hsx]
      | ok p =>
        exfalso
        obtain ⟨c, fd⟩ := p
        rw [show (min_maliyet_akis_hesapla simplex s).hata = none from by
          simp [min_maliyet_akis_hesapla, hb, hsx]] at hfail
        exact hfail rfl
  exact ⟨hstate, fun u v => by rw [hstate]⟩

/-- C8 witness: the failing solve on the unbalanced network `cg` leaves
the state — and the flow of an arbitrary probe pair — untouched. -/
theorem c8_tanik :
    (min_maliyet_akis_hesapla csimplex cg).state = cg ∧
    hatAkisi (min_maliyet_akis_hesapla csimplex cg).state kA kB = hatAkisi cg kA kB := by
  have H := c8_basarisiz_dokunmaz csimplex cg (by
    simp +decide [min_maliyet_akis_hesapla, csimplex, cg, buildMCF, mcfNodesYap, dugum_ekle,
      sebekeYap, aupsert, kA, kB, mcfDemand])
  exact ⟨H.1, H.2 kA kB⟩

/-- C10: the results cache `self.sonuclar` is written only on the success
path, and then its `akislar` and `toplam_maliyet` entries hold exactly the
returned pair; on the failure path the whole object — the cache
included — is unchanged, and in either case nothing but the edges' `akis`
attributes and the cache is modified (name, node dict and the edges'
capacities and costs are preserved). -/
theorem c10_sonuclar_cercevesi (simplex : MCFGraph → Except String (ℚ × FlowDict))
    (s : ElektrikSebekesi) :
    ((min_maliyet_akis_hesapla simplex s).hata = none →
      (min_maliyet_akis_hesapla simplex s).state.sonuclar_akislar =
        some (min_maliyet_akis_hesapla simplex s).akislar ∧
      (min_maliyet_akis_hesapla simplex s).state.sonuclar_toplam_maliyet =
        some (min_maliyet_akis_hesapla simplex s).maliyet) ∧
    ((min_maliyet_akis_hesapla simplex s).hata ≠ none →
      (min_maliyet_akis_hesapla simplex s).state = s) ∧
    (min_maliyet_akis_hesapla simplex s).state.ad = s.ad ∧
    (min_maliyet_akis_hesapla simplex s).state.nodes = s.nodes ∧
    adjSkel (min_maliyet_akis_hesapla simplex s).state.adj = adjSkel s.adj := by
  cases hb : buildMCF s with
  | none =>
    refine ⟨?_, ?_, ?_, ?_, ?_⟩ <;> simp [min_maliyet_akis_hesapla, hb]
  | some mcf =>
    cases hsx : simplex mcf with
    | error e =>
      refine ⟨?_, ?_, ?_, ?_, ?_⟩ <;> simp [min_maliyet_akis_hesapla, hb, hsx]
    | ok p =>
      obtain ⟨c, fd⟩ := p
      refine ⟨?_, ?_, ?_, ?_, ?_⟩ <;>
        simp [min_maliyet_akis_hesapla, hb, hsx, adjSkel_adjYaz]

/-- C10 witness: on the successful solve of `exG` the cache holds exactly
the returned pair and the frame conditions hold concretely. -/
theorem c10_tanik :
    (min_maliyet_akis_hesapla exSimplex exG).state.sonuclar_akislar =
      some (min_maliyet_akis_hesapla exSimplex exG).akislar ∧
    (min_maliyet_akis_hesapla exSimplex exG).state.sonuclar_toplam_maliyet =
      some (min_maliyet_akis_hesapla exSimplex exG).maliyet ∧
    (min_maliyet_akis_hesapla exSimplex exG).state.nodes = exG.nodes ∧
    adjSkel (min_maliyet_akis_hesapla exSimplex exG).state.adj = adjSkel exG.adj := by
  have H := c10_sonuclar_cercevesi exSimplex exG
  have hok := H.1 (by decide)
  exact ⟨hok.1, hok.2, H.2.2.2.1, H.2.2.2.2⟩

/-- C6: for every graph (with numeric flows) and every threshold in
`[0, 100]`, `darbogazlari_bul` returns exactly the records of the edges
with `capacity > 0` whose utilization `flow / capacity * 100` reaches the
threshold (a permutation of the spec-side selection `secilenKayitlar`,
which lists them in edge identity order), sorted by utilization descending
with ties keeping edge identity order (stability); and on the spec's test
edges `(100, 95), (50, 30), (80, 80)` with threshold 90 the result is
exactly `[80/80 at 100%, 100/95 at 95%]`, the 50/30 edge excluded. -/
theorem c6_darbogaz_dogru :
    (∀ (s : ElektrikSebekesi) (esik : ℚ), 0 ≤ esik → esik ≤ 100 →
      tumAkislarSayi s = true →
      ∃ l, darbogazlari_bul s esik = some l ∧
        l.Perm (secilenKayitlar (edgesOf s) esik) ∧
        l.Pairwise (fun a b => b.kullanim_yuzdesi ≤ a.kullanim_yuzdesi) ∧
        (∀ a b : Darbogaz, b.kullanim_yuzdesi ≤ a.kullanim_yuzdesi →
          List.Sublist [a, b] (secilenKayitlar (edgesOf s) esik) →
          List.Sublist [a, b] l)) ∧
    darbogazlari_bul ornekDB 90 =
      some [⟨(kB, kC), 80, 80, 100⟩, ⟨(kA, kB), 100, 95, 95⟩] := by
  constructor
  · intro s esik _ _ hnum
    have ht : darbogazToplama (edgesOf s) esik = some (secilenKayitlar (edgesOf s) esik) :=
      darbogazToplamaEq _ _ (by rw [tumAkislarSayi] at hnum; exact hnum)
    refine ⟨(secilenKayitlar (edgesOf s) esik).mergeSort dbLe, ?_, ?_, ?_, ?_⟩
    · simp [darbogazlari_bul, ht]
    · exact List.mergeSort_perm _ dbLe
    · have hs := List.sorted_mergeSort dbLeTrans dbLeTotal (secilenKayitlar (edgesOf s) esik)
      exact hs.imp fun hab => of_decide_eq_true hab
    · intro a b hba hsub
      exact List.pair_sublist_mergeSort dbLeTrans dbLeTotal
        (by simpa [dbLe] using hba) hsub
  · have ht : darbogazToplama (edgesOf ornekDB) 90 =
        some [⟨(kA, kB), 100, 95, 95⟩, ⟨(kB, kC), 80, 80, 100⟩] := by
      simp +decide [darbogazToplama, edgesOf, ornekDB, hat_ekle, sebekeYap, amem, alookup,
        aupsert, kA, kB, kC]
      norm_num
    have h2 : darbogazlari_bul ornekDB 90 =
        some (List.mergeSort [⟨(kA, kB), 100, 95, 95⟩, ⟨(kB, kC), 80, 80, 100⟩] dbLe) := by
      rw [darbogazlari_bul, ht]
    rw [h2]
    refine congrArg some ?_
    rw [List.mergeSort]
    norm_num [List.splitInTwo, List.splitAt, List.splitAt.go, List.mergeSort, List.merge, dbLe]

/-- C6 witness: the general statement applied to the spec's test network
and threshold 90. -/
theorem c6_tanik :
    ∃ l, darbogazlari_bul ornekDB 90 = some l ∧
      l.Perm (secilenKayitlar (edgesOf ornekDB) 90) ∧
      l.Pairwise (fun a b => b.kullanim_yuzdesi ≤ a.kullanim_yuzdesi) ∧
      (∀ a b : Darbogaz, b.kullanim_yuzdesi ≤ a.kullanim_yuzdesi →
        List.Sublist [a, b] (secilenKayitlar (edgesOf ornekDB) 90) →
        List.Sublist [a, b] l) :=
  c6_darbogaz_dogru.1 ornekDB 90 (by norm_num) (by norm_num)
    (by simp +decide [tumAkislarSayi, edgesOf, ornekDB, hat_ekle, sebekeYap, amem, alookup,
      aupsert, kA, kB, kC, PVal.isNum])

/-- C9: an over-capacity flow on a positive-capacity edge (as left by a
manual `akis_ata` override) yields a utilization above 100 percent, and
`darbogazlari_bul` neither clamps nor rejects it: for every threshold at
or below that utilization the edge's record appears in the result. -/
theorem c9_asiri_kullanim (s : ElektrikSebekesi) (esik : ℚ) (u v : PKey) (e : EdgeAttr)
    (hmem : (u, v, e) ∈ edgesOf s) (hnum : tumAkislarSayi s = true)
    (hkap : e.kapasite > 0) (hflow : e.akis.q > e.kapasite)
    (hesik : esik ≤ e.akis.q / e.kapasite * 100) :
    e.akis.q / e.kapasite * 100 > 100 ∧
    ∃ l, darbogazlari_bul s esik = some l ∧
      (⟨(u, v), e.kapasite, e.akis.q, e.akis.q / e.kapasite * 100⟩ : Darbogaz) ∈ l := by
  have hutil : e.akis.q / e.kapasite * 100 > 100 := by
    have h1 : 1 < e.akis.q / e.kapasite := (one_lt_div hkap).mpr hflow
    nlinarith
  have ht : darbogazToplama (edgesOf s) esik = some (secilenKayitlar (edgesOf s) esik) :=
    darbogazToplamaEq _ _ (by rw [tumAkislarSayi] at hnum; exact hnum)
  refine ⟨hutil, (secilenKayitlar (edgesOf s) esik).mergeSort dbLe,
    by simp [darbogazlari_bul, ht], ?_⟩
  rw [List.mem_mergeSort]
  rw [secilenKayitlar, List.mem_filterMap]
  refine ⟨(u, v, e), hmem, ?_⟩
  rw [if_pos ⟨hkap, hesik⟩]

/-- C9 witness: on `g9` (edge `(A, B)` with capacity 100 manually pushed
to flow 150) and threshold 120 the edge appears with utilization 150%. -/
theorem c9_tanik :
    (150 : ℚ) / 100 * 100 > 100 ∧
    ∃ l, darbogazlari_bul g9 120 = some l ∧
      (⟨(kA, kB), 100, 150, (150 : ℚ) / 100 * 100⟩ : Darbogaz) ∈ l :=
  c9_asiri_kullanim g9 120 kA kB ⟨100, 1, PVal.num 150⟩
    (by simp +decide [edgesOf, g9, ornekDB, akis_ata, hat_ekle, sebekeYap, amem, alookup,
      aupsert, kA, kB, kC])
    (by simp +decide [tumAkislarSayi, edgesOf, g9, ornekDB, akis_ata, hat_ekle, sebekeYap,
      amem, alookup, aupsert, kA, kB, kC, PVal.isNum])
    (by norm_num) (by norm_num [PVal.q]) (by norm_num [PVal.q])
